import Mathlib

/-!
Verification of the Black-Litterman engine in `black_litterman.py`.

The engine is embedded shallowly over the rationals: numpy/pandas float
arithmetic becomes exact `ℚ` arithmetic, numpy vectors become `List ℚ`
(column-major tables become lists of columns), pandas NaN propagation is
tracked with `Option ℚ` (`none` = NaN), and the linear-algebra methods that
operate on well-formed data are additionally embedded over ordinary Mathlib
matrices `Matrix (Fin k) (Fin n) ℚ`.  `np.log` is an external transcendental
routine; the embedding is parametric in an elementwise map `logf : ℚ → ℚ`,
because every property verified here is independent of the numeric values of
the logarithm.  Fallible code paths (Python `raise`) are `Except`.
-/

/-- numpy style dot product of two vectors (`a.dot(b)` for 1-d arrays). -/
def dotL (a b : List ℚ) : ℚ := (List.zipWith (fun x y => x * y) a b).sum

/-- Arithmetic mean of a list, used by the sample covariance. -/
def meanL (xs : List ℚ) : ℚ := xs.sum / (xs.length : ℚ)

/-- One column of `np.log(price_data / price_data.shift(1))` after `dropna()`
(`compute_returns`, method `log`, lines 64-65): row `t ≥ 1` holds
`log (p_t / p_(t-1))`; the first (undefined) row is dropped, so a column of
`L` prices yields `L - 1` returns. -/
def log_returns (logf : ℚ → ℚ) (prices : List ℚ) : List ℚ :=
  List.zipWith (fun prev cur => logf (cur / prev)) prices prices.tail

/-- One column of `price_data.pct_change()` after `dropna()`
(`compute_returns`, method `simple`, line 67). -/
def simple_returns (prices : List ℚ) : List ℚ :=
  List.zipWith (fun prev cur => cur / prev - 1) prices prices.tail

/-- Embeds `BlackLitterman.compute_returns` (lines 54-70): dispatch on the `method`
string, raising `ValueError` for an unknown method. -/
def compute_returns (logf : ℚ → ℚ) (priceCols : List (List ℚ)) (method : String) :
    Except String (List (List ℚ)) :=
  if method = "log" then .ok (priceCols.map (log_returns logf))
  else if method = "simple" then .ok (priceCols.map simple_returns)
  else .error "Il metodo deve essere log o simple"

/-- One entry of the pandas sample covariance `returns.cov()` (ddof = 1):
with fewer than 2 observations the denominator `count - 1` vanishes and
pandas produces NaN, modelled as `none`. -/
def cov_entry (xs ys : List ℚ) : Option ℚ :=
  if xs.length < 2 ∨ ys.length < 2 then none
  else some ((List.zipWith (fun a b => (a - meanL xs) * (b - meanL ys)) xs ys).sum
      / ((xs.length : ℚ) - 1))

/-- Embeds `BlackLitterman.compute_covariance` (lines 72-85): the sample covariance
of the return columns, `* 252` when `annualize`.  Crucially, pandas
`returns.cov().values` is indexed by the DataFrame's own column order — the
order of `retCols` — not by any external asset order. -/
def compute_covariance (retCols : List (List ℚ)) (annualize : Bool) :
    List (List (Option ℚ)) :=
  retCols.map (fun xs => retCols.map (fun ys =>
    (cov_entry xs ys).map (fun c => if annualize then c * 252 else c)))

/-- The `price_data` DataFrame: one `(column name, column values)` pair per
asset column, in the DataFrame's column order; rows are taken to be already
in ascending date order (`sort_index()` only reorders rows and no verified
property depends on the row permutation). -/
structure PriceTable where
  cols : List (String × List ℚ)
deriving DecidableEq

/-- The covariance matrix the constructor caches:
`compute_covariance(compute_returns())` on the price columns, in the price
table's column order (lines 47-48). -/
def bl_sigma (logf : ℚ → ℚ) (t : PriceTable) : List (List (Option ℚ)) :=
  compute_covariance ((t.cols.map Prod.snd).map (log_returns logf)) true

/-- The price column stored under asset name `a` (first match). -/
def column_for (t : PriceTable) (a : String) : List ℚ :=
  ((t.cols.find? (fun c => c.1 = a)).map Prod.snd).getD []

/-- Written from the SPEC's words, for comparison with `bl_sigma`:
"every other entity's per-asset dimension must align to this order", i.e. a
covariance matrix whose row `i` / column `j` belong to the `i`-th / `j`-th
asset of the `AssetUniverse` (the `market_composition` key order). -/
def spec_aligned_sigma (logf : ℚ → ℚ) (mc : List (String × ℚ)) (t : PriceTable) :
    List (List (Option ℚ)) :=
  compute_covariance (((mc.map Prod.fst).map (column_for t)).map (log_returns logf)) true

/-- Numpy sum over possibly-NaN values: NaN absorbs. -/
def sumOpt : List (Option ℚ) → Option ℚ
  | [] => some 0
  | x :: xs =>
    match x, sumOpt xs with
    | some a, some s => some (a + s)
    | _, _ => none

/-- Computes `row.dot(v)` where the row may contain NaN entries. -/
def dotOpt (row : List (Option ℚ)) (v : List ℚ) : Option ℚ :=
  sumOpt (List.zipWith (fun e b => e.map (fun a => a * b)) row v)

/-- The distinct failures the embedded engine can raise: `shape_mismatch` is
the generic `ValueError` numpy raises from `Sigma.dot(w_market)` when the
operand dimensions disagree; `value_error` / `runtime_error` mirror the
Python exception classes raised explicitly by the source (messages kept
recognisable, without quote characters). -/
inductive BLError where
  | shape_mismatch
  | value_error (msg : String)
  | runtime_error (msg : String)
deriving DecidableEq

/-- The state `BlackLitterman.__init__` caches (lines 32-52). -/
structure BlackLitterman where
  assets : List String
  w_market : List ℚ
  Sigma : List (List (Option ℚ))
  pi : List (Option ℚ)
  risk_aversion : ℚ
  tau : ℚ
deriving DecidableEq

/-- Embeds `BlackLitterman.__init__` (lines 32-52): asset order = key order of the
`market_composition` dict; `w_market = w / np.sum(w)`;
`Sigma = compute_covariance(compute_returns())` — `compute_returns()` is
called with its default method `log`, which always takes the `.ok` branch
(see `compute_returns_log_eq`), so that branch is inlined; finally
`pi = risk_aversion * Sigma.dot(w_market)`.  The only thing that can raise
is the numpy dot product, which demands that the covariance dimension (= the
number of price columns) equal `len(w_market)`; no asset-name comparison is
performed anywhere. -/
def mkBlackLitterman (logf : ℚ → ℚ) (market_composition : List (String × ℚ))
    (price_data : PriceTable) (risk_aversion : ℚ) (tau : ℚ) :
    Except BLError BlackLitterman :=
  let assets := market_composition.map Prod.fst
  let w0 := market_composition.map Prod.snd
  let w_market := w0.map (fun x => x / w0.sum)
  let Sigma := bl_sigma logf price_data
  if price_data.cols.length = market_composition.length then
    .ok { assets := assets, w_market := w_market, Sigma := Sigma,
          pi := Sigma.map (fun row => (dotOpt row w_market).map (fun x => risk_aversion * x)),
          risk_aversion := risk_aversion, tau := tau }
  else .error .shape_mismatch

/-- Placeholder state used only to totalise `bl_of`. -/
def emptyBL : BlackLitterman :=
  { assets := [], w_market := [], Sigma := [], pi := [], risk_aversion := 0, tau := 0 }

/-- Projects a successful construction to its state. -/
def bl_of : Except BLError BlackLitterman → BlackLitterman
  | .ok st => st
  | .error _ => emptyBL

/-- Did the computation succeed (no exception)? -/
def is_ok {ε α : Type} : Except ε α → Bool
  | .ok _ => true
  | .error _ => false

/-- The possible runtime shapes of the `assets` field of a view dict:
absent or `None`, a string, a list of strings, or any other Python value. -/
inductive AssetInput where
  | missing
  | str (s : String)
  | list (l : List String)
  | other
deriving DecidableEq

/-- A raw view dict.  `excess_return = none` models the key being absent or
set to `None` (both give 0.0, lines 173-175); `confidence = none` models the
key being absent (default 0.0001, line 178). -/
structure ViewSpec where
  assets : AssetInput
  excess_return : Option ℚ
  confidence : Option ℚ
deriving DecidableEq

/-- Python `s.split(',')` over the character list: every comma separates two
fragments, so `n` commas yield `n + 1` fragments (possibly empty). -/
def split_commas : List Char → List Char → List (List Char)
  | cur, [] => [cur.reverse]
  | cur, c :: rest =>
    if c = ',' then cur.reverse :: split_commas [] rest
    else split_commas (c :: cur) rest

/-- Python `str.strip()` on a fragment: drop leading and trailing
whitespace characters. -/
def trim_chars (cs : List Char) : List Char :=
  ((cs.dropWhile Char.isWhitespace).reverse.dropWhile Char.isWhitespace).reverse

/-- Embeds `[asset.strip() for asset in asset_input.split(',') if asset.strip()]`
(line 154): split on commas, trim surrounding whitespace, drop empty
fragments. -/
def split_trim (s : String) : List String :=
  (((split_commas [] s.toList).map trim_chars).filter (fun a => a ≠ [])).map
    List.asString

/-- Embeds `[i for i, asset in enumerate(self.assets) if asset in asset_list]`
(line 165): the universe positions whose asset occurs in the view's list. -/
def matched_indices (assets : List String) (asset_list : List String) : List ℕ :=
  (List.range assets.length).filter (fun i => assets.getD i "" ∈ asset_list)

/-- Lines 160-180 of `add_view`: the part after the asset specification has
been resolved to a list.  A `P = np.zeros((1, n))` row receives `1/len(indices)`
at each matched index; `Q = P.dot(pi) + excess_return`; `Omega = [[confidence]]`. -/
def add_view_list (assets : List String) (pi : List ℚ) (view : ViewSpec)
    (asset_list : List String) :
    Except BLError (Option (List (List ℚ) × List ℚ × List (List ℚ))) :=
  if asset_list = [] then .ok none
  else
    let n := assets.length
    let indices := matched_indices assets asset_list
    if indices = [] then
      .error (.value_error "Nessun asset della view corrisponde agli asset del portafoglio.")
    else
      let row := (List.range n).map
        (fun i => if i ∈ indices then 1 / (indices.length : ℚ) else 0)
      let excess_return := view.excess_return.getD 0
      let q := dotL row pi + excess_return
      let confidence := view.confidence.getD (1 / 10000)
      .ok (some ([row], [q], [[confidence]]))

/-- Embeds `BlackLitterman.add_view`, the effective (second) definition at lines
131-180.  `Except.ok none` is the Python `return None` no-op; an empty dict
has every key absent and is therefore covered by `AssetInput.missing`. -/
def add_view (assets : List String) (pi : List ℚ) (view : ViewSpec) :
    Except BLError (Option (List (List ℚ) × List ℚ × List (List ℚ))) :=
  match view.assets with
  | .missing => .ok none
  | .other => .error (.value_error "Il campo assets deve essere una stringa o una lista.")
  | .str s => if s = "" then .ok none else add_view_list assets pi view (split_trim s)
  | .list l => add_view_list assets pi view l

/-- What `scipy.optimize.minimize` hands back: a success flag, the final
point `x`, and a diagnostic message. -/
structure SolverResult where
  success : Bool
  x : List ℚ
  message : String

/-- Models `scipy.optimize.minimize(objective, init_guess, method="SLSQP", bounds,
constraints)` modelled as an abstract function of the data the source passes
to it: the objective, the initial guess, the box bounds, and the equality
constraint function `w ↦ Σw - 1`. -/
def SolverFn : Type :=
  (List ℚ → ℚ) → List ℚ → List (ℚ × ℚ) → (List ℚ → ℚ) → SolverResult

/-- Computes `w.dot(Sigma)` for a row vector `w` and matrix given as a list of rows. -/
def vecMatL (w : List ℚ) (M : List (List ℚ)) : List ℚ :=
  (List.range (M.headD []).length).map (fun j =>
    (List.zipWith (fun wi row => wi * row.getD j 0) w M).sum)

/-- Embeds `[(1 - max_deviation) * w_market[i] for i in range(n)]` (line 247);
`n = len(self.assets) = len(w_market)` in the engine. -/
def lower_bounds (w_market : List ℚ) (max_deviation : ℚ) : List ℚ :=
  (List.range w_market.length).map (fun i => (1 - max_deviation) * w_market.getD i 0)

/-- Embeds `[(1 + max_deviation) * w_market[i] for i in range(n)]` (line 248). -/
def upper_bounds (w_market : List ℚ) (max_deviation : ℚ) : List ℚ :=
  (List.range w_market.length).map (fun i => (1 + max_deviation) * w_market.getD i 0)

/-- Embeds `BlackLitterman.compute_optimal_weights` (lines 226-265): build the
objective `w ↦ -(mu·w - (λ/2)·wᵀΣw)` and the per-asset box bounds; fail fast
with the descriptive `ValueError` if `sum(lower) > 1 or sum(upper) < 1`;
otherwise invoke the solver from `init_guess = w_market` and return
`result.x` on success or raise `RuntimeError` with the solver message. -/
def compute_optimal_weights (solver : SolverFn) (risk_aversion : ℚ)
    (SigmaQ : List (List ℚ)) (w_market : List ℚ) (mu : List ℚ)
    (max_deviation : ℚ) : Except BLError (List ℚ) :=
  let objective := fun w : List ℚ =>
    -(dotL mu w - (1 / 2) * risk_aversion * dotL (vecMatL w SigmaQ) w)
  let lbs := lower_bounds w_market max_deviation
  let ubs := upper_bounds w_market max_deviation
  if lbs.sum > 1 ∨ ubs.sum < 1 then
    .error (.value_error
      "I vincoli sui pesi sono incompatibili: verifica il valore di max_deviation.")
  else
    let bounds := List.zip lbs ubs
    let constraint := fun w : List ℚ => w.sum - 1
    let result := solver objective w_market bounds constraint
    if result.success then .ok result.x
    else .error (.runtime_error ("Ottimizzazione fallita: " ++ result.message))

/-- Recognises the fail-fast infeasibility `ValueError` of
`compute_optimal_weights` (line 251); the solver-failure path raises a
`RuntimeError` instead, so the two are distinguishable. -/
def is_infeasible_error : Except BLError (List ℚ) → Bool
  | .error (.value_error _) => true
  | _ => false

/-- Models `np.linalg.inv` over ℚ: `det⁻¹ • adjugate`, the inverse whenever the
determinant is nonzero (numpy raises `LinAlgError` on a singular input; the
theorems carry the nonsingularity hypothesis instead). -/
def npInv {k : ℕ} (A : Matrix (Fin k) (Fin k) ℚ) : Matrix (Fin k) (Fin k) ℚ :=
  (A.det)⁻¹ • A.adjugate

/-- The stacked view matrices handed to `compute_posterior_returns`:
`P` is `n_views × n_assets`, `Q` has one target per view, `Omega` is
`n_views × n_views`. -/
structure ViewMatrices (n k : ℕ) where
  P : Matrix (Fin k) (Fin n) ℚ
  Q : Fin k → ℚ
  Omega : Matrix (Fin k) (Fin k) ℚ

/-- Embeds `BlackLitterman.compute_posterior_returns` (lines 209-224) over exact
matrices: `P is None or P.shape[0] == 0` returns `pi` unchanged; otherwise
`middle_term = P.dot(tau*Sigma).dot(P.T) + Omega` (a `k × k` matrix, the only
matrix ever inverted) and
`mu_post = pi + tau * Sigma.dot(P.T).dot(inv(middle_term)).dot(Q - P.dot(pi))`. -/
def compute_posterior_returns {n : ℕ} (pi : Fin n → ℚ)
    (Sigma : Matrix (Fin n) (Fin n) ℚ) (tau : ℚ) :
    Option ((k : ℕ) × ViewMatrices n k) → (Fin n → ℚ)
  | none => pi
  | some ⟨0, _⟩ => pi
  | some ⟨_ + 1, v⟩ =>
    let middle_term := v.P * (tau • Sigma) * v.P.transpose + v.Omega
    let middle_term_inv := npInv middle_term
    pi + tau • (Sigma * v.P.transpose * middle_term_inv).mulVec (v.Q - v.P.mulVec pi)

/-- Written from the SPEC's words, for comparison with
`compute_posterior_returns`: the master formula exactly as the spec states
it, `mu_post = pi + tauΣPᵗ · (PtauΣPᵗ + Omega)⁻¹ · (Q − Ppi)`. -/
def mu_post_spec {n k : ℕ} (pi : Fin n → ℚ) (Sigma : Matrix (Fin n) (Fin n) ℚ)
    (tau : ℚ) (P : Matrix (Fin k) (Fin n) ℚ) (Q : Fin k → ℚ)
    (Omega : Matrix (Fin k) (Fin k) ℚ) : Fin n → ℚ :=
  pi + ((tau • Sigma) * P.transpose *
    npInv (P * (tau • Sigma) * P.transpose + Omega)).mulVec (Q - P.mulVec pi)

/-- The contract of the external SLSQP solver (scipy), the sole property of
`scipy.optimize.minimize` the source relies on: a result reported as
successful has one coordinate per bound, respects every box bound, and
satisfies the equality constraint function up to `tol`. -/
def solver_sound (solver : SolverFn) (tol : ℚ) : Prop :=
  ∀ (f : List ℚ → ℚ) (x0 : List ℚ) (bounds : List (ℚ × ℚ)) (g : List ℚ → ℚ),
    (solver f x0 bounds g).success = true →
      (solver f x0 bounds g).x.length = bounds.length ∧
      (∀ i, i < bounds.length →
        (bounds.getD i (0, 0)).1 ≤ (solver f x0 bounds g).x.getD i 0 ∧
        (solver f x0 bounds g).x.getD i 0 ≤ (bounds.getD i (0, 0)).2) ∧
      |g ((solver f x0 bounds g).x)| ≤ tol

/-- Feasibility check backing `checkedSolver`. -/
def feasibleB (x : List ℚ) (bounds : List (ℚ × ℚ)) (g : List ℚ → ℚ) (tol : ℚ) : Bool :=
  decide (x.length = bounds.length) &&
  (List.range bounds.length).all (fun i =>
    decide ((bounds.getD i (0, 0)).1 ≤ x.getD i 0) &&
    decide (x.getD i 0 ≤ (bounds.getD i (0, 0)).2)) &&
  decide (|g x| ≤ tol)

/-- A concrete solver instance: report success exactly when the initial
guess already satisfies the bounds and the constraint, and return it. -/
def checkedSolver : SolverFn :=
  fun _f x0 bounds g => { success := feasibleB x0 bounds g (1 / 1000000), x := x0, message := "" }

/-- A concrete solver instance that always reports failure. -/
def failSolver : SolverFn :=
  fun _f _x0 _bounds _g => { success := false, x := [], message := "solver budget exhausted" }

/-- Concrete stand-in for `np.log` used to instantiate closed examples; the
structural properties at issue are independent of the elementwise map. -/
def logStub : ℚ → ℚ := fun x => x

/-- Concrete two-asset market composition, keys ordered A then B. -/
def mcAB : List (String × ℚ) := [("A", 3 / 5), ("B", 2 / 5)]

/-- Price table whose column order (B first) differs from the key order of
`mcAB`; column B is constant, column A is not. -/
def tSwapped : PriceTable := ⟨[("B", [1, 1, 1]), ("A", [1, 2, 1])]⟩

/-- Price table whose columns are exactly the keys of `mcAB`, in order. -/
def tAligned : PriceTable := ⟨[("A", [1, 2, 1]), ("B", [1, 1, 1])]⟩

/-- Price table with the same number of columns as `mcAB` has assets, but
with asset B replaced by an unrelated column C. -/
def tMissing : PriceTable := ⟨[("A", [1, 2, 1]), ("C", [1, 1, 1])]⟩

/-- Price table with a single column, fewer than `mcAB` has assets. -/
def tShort : PriceTable := ⟨[("A", [1, 2, 1])]⟩

/-- Price table with only 2 price rows, hence a single return row. -/
def tTwoRows : PriceTable := ⟨[("A", [1, 2]), ("B", [1, 3])]⟩

/-- Spec section 8 example composition `A:2, B:2, C:1`. -/
def mcABC : List (String × ℚ) := [("A", 2), ("B", 2), ("C", 1)]

/-- Three-column price table matching `mcABC`. -/
def tABC : PriceTable :=
  ⟨[("A", [1, 2, 1]), ("B", [1, 1, 2]), ("C", [2, 1, 1])]⟩

/-- Concrete asset universe for the view-encoder examples. -/
def wAssets : List String := ["IT", "Financial", "Other"]

/-- Concrete equilibrium returns for the view-encoder examples. -/
def wPi : List ℚ := [3 / 50, 1 / 25, 1 / 20]

/-- Concrete covariance used by the optimizer examples. -/
def wSigmaQ : List (List ℚ) := [[1, 0], [0, 1]]

/-- Concrete market weights used by the optimizer examples. -/
def wMarket2 : List ℚ := [3 / 5, 2 / 5]

/-- Concrete expected returns used by the optimizer examples. -/
def wMu2 : List ℚ := [1 / 10, 1 / 20]

/-- Concrete equilibrium vector for the posterior example (2 assets). -/
def pPi : Fin 2 → ℚ := ![1 / 20, 1 / 10]

/-- Concrete covariance for the posterior example. -/
def pSigma : Matrix (Fin 2) (Fin 2) ℚ := !![1 / 25, 1 / 100; 1 / 100, 9 / 100]

/-- Concrete single-view selection matrix for the posterior example. -/
def pP : Matrix (Fin 1) (Fin 2) ℚ := !![1, 0]

/-- Concrete view target for the posterior example. -/
def pQ : Fin 1 → ℚ := ![7 / 100]

/-- Concrete view uncertainty for the posterior example. -/
def pOmega : Matrix (Fin 1) (Fin 1) ℚ := !![1 / 10000]

/-- Lemma: `npInv` coincides with Mathlib's nonsingular inverse over ℚ. -/
theorem npInv_eq_inv {k : ℕ} (A : Matrix (Fin k) (Fin k) ℚ) : npInv A = A⁻¹ := by
  rw [npInv, Matrix.inv_def, Ring.inverse_eq_inv]

/-- C3: for all valid `pi`, `Sigma` and `tau`, `compute_posterior_returns`
returns the equilibrium vector `pi` exactly unchanged whenever the view set
is empty, i.e. whenever `P` is `None` or has zero rows. -/
theorem posterior_no_view_identity {n : ℕ} (pi : Fin n → ℚ)
    (Sigma : Matrix (Fin n) (Fin n) ℚ) (tau : ℚ) :
    compute_posterior_returns pi Sigma tau none = pi ∧
    ∀ (P : Matrix (Fin 0) (Fin n) ℚ) (Q : Fin 0 → ℚ) (Om : Matrix (Fin 0) (Fin 0) ℚ),
      compute_posterior_returns pi Sigma tau (some ⟨0, ⟨P, Q, Om⟩⟩) = pi :=
  ⟨rfl, fun _ _ _ => rfl⟩

/-- C4: with at least one view present, `compute_posterior_returns` computes
exactly the Black-Litterman master formula as the spec states it
(`mu_post_spec`), and the inverted `middle_term` — the only inversion the
definition performs — is the `n_views × n_views` matrix
`P(tauΣ)Pᵗ + Omega`, a genuine two-sided inverse when its determinant is
nonzero. -/
theorem posterior_master_formula {n k : ℕ} (pi : Fin n → ℚ)
    (Sigma : Matrix (Fin n) (Fin n) ℚ) (tau : ℚ) (P : Matrix (Fin (k + 1)) (Fin n) ℚ)
    (Q : Fin (k + 1) → ℚ) (Om : Matrix (Fin (k + 1)) (Fin (k + 1)) ℚ)
    (hdet : (P * (tau • Sigma) * P.transpose + Om).det ≠ 0) :
    compute_posterior_returns pi Sigma tau (some ⟨k + 1, ⟨P, Q, Om⟩⟩) =
      mu_post_spec pi Sigma tau P Q Om ∧
    (P * (tau • Sigma) * P.transpose + Om) *
      npInv (P * (tau • Sigma) * P.transpose + Om) = 1 ∧
    npInv (P * (tau • Sigma) * P.transpose + Om) *
      (P * (tau • Sigma) * P.transpose + Om) = 1 := by
  refine ⟨?_, ?_, ?_⟩
  · show pi + tau • _ = pi + _
    rw [Matrix.smul_mul, Matrix.smul_mul, Matrix.smul_mulVec_assoc]
  · rw [npInv_eq_inv]
    exact Matrix.mul_nonsing_inv _ (isUnit_iff_ne_zero.mpr hdet)
  · rw [npInv_eq_inv]
    exact Matrix.nonsing_inv_mul _ (isUnit_iff_ne_zero.mpr hdet)

/-- Witness for C4 at a concrete two-asset, one-view instance. -/
theorem posterior_master_formula_witness :
    ((pP * ((1 / 40 : ℚ) • pSigma) * pP.transpose + pOmega).det ≠ 0) ∧
    (compute_posterior_returns pPi pSigma (1 / 40) (some ⟨1, ⟨pP, pQ, pOmega⟩⟩) =
        mu_post_spec pPi pSigma (1 / 40) pP pQ pOmega ∧
      (pP * ((1 / 40 : ℚ) • pSigma) * pP.transpose + pOmega) *
        npInv (pP * ((1 / 40 : ℚ) • pSigma) * pP.transpose + pOmega) = 1 ∧
      npInv (pP * ((1 / 40 : ℚ) • pSigma) * pP.transpose + pOmega) *
        (pP * ((1 / 40 : ℚ) • pSigma) * pP.transpose + pOmega) = 1) :=
  ⟨by
    norm_num [pP, pSigma, pOmega, Matrix.det_fin_one, Matrix.add_apply, Matrix.mul_apply,
      Matrix.smul_apply, Matrix.transpose_apply, Fin.sum_univ_two, Matrix.vecHead,
      Matrix.vecTail, Matrix.cons_val_zero, Matrix.cons_val_one, Matrix.head_cons],
    posterior_master_formula pPi pSigma (1 / 40) pP pQ pOmega
      (show (pP * ((1 / 40 : ℚ) • pSigma) * pP.transpose + pOmega).det ≠ 0 by
        norm_num [pP, pSigma, pOmega, Matrix.det_fin_one, Matrix.add_apply, Matrix.mul_apply,
          Matrix.smul_apply, Matrix.transpose_apply, Fin.sum_univ_two, Matrix.vecHead,
          Matrix.vecTail, Matrix.cons_val_zero, Matrix.cons_val_one, Matrix.head_cons])⟩

/-- Auxiliary: `getD` of a map over `List.range` evaluates the function. -/
theorem getD_map_range {α : Type} (d : α) :
    ∀ (n : ℕ) (f : ℕ → α) (i : ℕ), i < n → ((List.range n).map f).getD i d = f i := by
  intro n
  induction n with
  | zero => intro f i h; exact absurd h (Nat.not_lt_zero i)
  | succ n ih =>
    intro f i h
    rw [List.range_succ_eq_map, List.map_cons]
    cases i with
    | zero => rfl
    | succ i =>
      rw [List.getD_cons_succ, List.map_map]
      exact ih (f ∘ Nat.succ) i (Nat.lt_of_succ_lt_succ h)

/-- Auxiliary: an in-range `getD` is a member of the list. -/
theorem getD_mem_of_lt {α : Type} :
    ∀ (l : List α) (d : α) (i : ℕ), i < l.length → l.getD i d ∈ l := by
  intro l
  induction l with
  | nil => intro d i h; exact absurd h (Nat.not_lt_zero i)
  | cons x xs ih =>
    intro d i h
    cases i with
    | zero => exact List.mem_cons_self x xs
    | succ i => exact List.mem_cons_of_mem x (ih d i (Nat.lt_of_succ_lt_succ h))

/-- A universe position is matched iff its asset occurs in the view's list. -/
theorem mem_matched_indices (assets asset_list : List String) (i : ℕ) :
    i ∈ matched_indices assets asset_list ↔
      i < assets.length ∧ assets.getD i "" ∈ asset_list := by
  simp [matched_indices, List.mem_filter, List.mem_range]

/-- If no universe asset occurs in the view's list, nothing is matched. -/
theorem matched_indices_eq_nil (assets l : List String) (h : ∀ a ∈ assets, a ∉ l) :
    matched_indices assets l = [] := by
  rw [List.eq_nil_iff_forall_not_mem]
  intro i hi
  rw [mem_matched_indices] at hi
  exact h _ (getD_mem_of_lt assets "" i hi.1) hi.2

/-- C7: `add_view` returns `None` (a no-op) whenever the view is empty or
its asset specification is missing, empty, or reduces to an empty list after
comma-splitting and whitespace-trimming; it raises a validation error when
the asset specification is non-empty yet matches zero universe assets, and
also when the assets field is neither a string nor a list. -/
theorem add_view_noop_and_error_cases (assets : List String) (pi : List ℚ)
    (er conf : Option ℚ) :
    (add_view assets pi ⟨.missing, er, conf⟩ = .ok none) ∧
    (add_view assets pi ⟨.str "", er, conf⟩ = .ok none) ∧
    (∀ s : String, split_trim s = [] → add_view assets pi ⟨.str s, er, conf⟩ = .ok none) ∧
    (add_view assets pi ⟨.list [], er, conf⟩ = .ok none) ∧
    (add_view assets pi ⟨.other, er, conf⟩ =
      .error (.value_error "Il campo assets deve essere una stringa o una lista.")) ∧
    (∀ l : List String, l ≠ [] → (∀ a ∈ assets, a ∉ l) →
      add_view assets pi ⟨.list l, er, conf⟩ =
        .error (.value_error
          "Nessun asset della view corrisponde agli asset del portafoglio.")) ∧
    (∀ s : String, split_trim s ≠ [] → (∀ a ∈ assets, a ∉ split_trim s) →
      add_view assets pi ⟨.str s, er, conf⟩ =
        .error (.value_error
          "Nessun asset della view corrisponde agli asset del portafoglio.")) := by
  refine ⟨rfl, rfl, ?_, rfl, rfl, ?_, ?_⟩
  · intro s hs
    by_cases he : s = ""
    · simp [add_view, he]
    · simp [add_view, he, add_view_list, hs]
  · intro l hl hnone
    simp [add_view, add_view_list, hl, matched_indices_eq_nil assets l hnone]
  · intro s hs hnone
    have he : s ≠ "" := by
      intro h
      rw [h] at hs
      exact hs (by decide)
    simp [add_view, he, add_view_list, hs,
      matched_indices_eq_nil assets (split_trim s) hnone]

/-- Witness for C7 at concrete inputs: a whitespace-only comma string is a
no-op, and an explicit unrecognised asset raises the validation error. -/
theorem add_view_noop_and_error_cases_witness :
    (split_trim " , " = []) ∧
    (add_view wAssets wPi ⟨.str " , ", none, none⟩ = .ok none) ∧
    ((["X"] : List String) ≠ []) ∧ (∀ a ∈ wAssets, a ∉ (["X"] : List String)) ∧
    (add_view wAssets wPi ⟨.list ["X"], none, none⟩ =
      .error (.value_error
        "Nessun asset della view corrisponde agli asset del portafoglio.")) := by
  refine ⟨by decide, ?_, by decide, by decide, ?_⟩
  · exact (add_view_noop_and_error_cases wAssets wPi none none).2.2.1 " , " (by decide)
  · exact (add_view_noop_and_error_cases wAssets wPi none none).2.2.2.2.2.1
      ["X"] (by decide) (by decide)

/-- C8: for a view matching `k ≥ 1` universe assets, `add_view` returns a
`1 × n_assets` selection row holding `1/k` at each matched index and `0`
elsewhere, the target `Q = row · pi + excess_return` (`excess_return`
defaulting to 0 when absent or `None`), and the `1 × 1` uncertainty matrix
`[[confidence]]` (default `1/10000`); a string specification behaves exactly
like the list obtained by comma-splitting and trimming it. -/
theorem add_view_selection_row (assets : List String) (pi : List ℚ)
    (er conf : Option ℚ) (l : List String) (hl : l ≠ [])
    (hm : matched_indices assets l ≠ []) :
    (∃ row : List ℚ,
      add_view assets pi ⟨.list l, er, conf⟩ =
        .ok (some ([row], [dotL row pi + er.getD 0], [[conf.getD (1 / 10000)]])) ∧
      row.length = assets.length ∧
      (∀ i, i < assets.length →
        row.getD i 0 =
          if assets.getD i "" ∈ l then
            1 / ((matched_indices assets l).length : ℚ) else 0)) ∧
    (∀ s : String, add_view assets pi ⟨.str s, er, conf⟩ =
      add_view assets pi ⟨.list (split_trim s), er, conf⟩) := by
  constructor
  · refine ⟨(List.range assets.length).map
      (fun i => if i ∈ matched_indices assets l then
        1 / ((matched_indices assets l).length : ℚ) else 0), ?_, ?_, ?_⟩
    · simp [add_view, add_view_list, hl, hm]
    · simp
    · intro i hi
      rw [getD_map_range 0 assets.length _ i hi]
      by_cases hc : assets.getD i "" ∈ l
      · rw [if_pos ((mem_matched_indices assets l i).mpr ⟨hi, hc⟩), if_pos hc]
      · rw [if_neg (fun hmem => hc ((mem_matched_indices assets l i).mp hmem).2),
          if_neg hc]
  · intro s
    by_cases he : s = ""
    · have h0 : split_trim "" = [] := by decide
      simp [add_view, he, h0, add_view_list]
    · simp only [add_view, if_neg he]
      rfl

/-- Witness for C8: a two-asset basket view on a three-asset universe, with
explicit excess return and confidence, both as a list and as the comma
string that splits to it. -/
theorem add_view_selection_row_witness :
    ((["IT", "Other"] : List String) ≠ []) ∧
    matched_indices wAssets ["IT", "Other"] ≠ [] ∧
    (∃ row : List ℚ,
      add_view wAssets wPi ⟨.list ["IT", "Other"], some (1 / 50), some (1 / 1000)⟩ =
        .ok (some ([row], [dotL row wPi + (some ((1 : ℚ) / 50)).getD 0],
          [[(some ((1 : ℚ) / 1000)).getD (1 / 10000)]])) ∧
      row.length = wAssets.length ∧
      (∀ i, i < wAssets.length →
        row.getD i 0 =
          if wAssets.getD i "" ∈ (["IT", "Other"] : List String) then
            1 / ((matched_indices wAssets ["IT", "Other"]).length : ℚ) else 0)) ∧
    add_view wAssets wPi ⟨.str "IT, Other", some (1 / 50), some (1 / 1000)⟩ =
      add_view wAssets wPi ⟨.list (split_trim "IT, Other"), some (1 / 50), some (1 / 1000)⟩ := by
  refine ⟨by decide, by decide, ?_, ?_⟩
  · exact (add_view_selection_row wAssets wPi (some (1 / 50)) (some (1 / 1000))
      ["IT", "Other"] (by decide) (by decide)).1
  · exact (add_view_selection_row wAssets wPi (some (1 / 50)) (some (1 / 1000))
      ["IT", "Other"] (by decide) (by decide)).2 "IT, Other"

/-- Auxiliary: dividing every element by `s` divides the sum by `s`. -/
theorem sum_map_div (l : List ℚ) (s : ℚ) :
    (l.map (fun x => x / s)).sum = l.sum / s := by
  induction l with
  | nil => simp
  | cons x xs ih => simp [ih, add_div]

/-- Auxiliary: scaling every element by `c` scales the sum by `c`. -/
theorem sum_map_scale (l : List ℚ) (c : ℚ) :
    (l.map (fun x => c * x)).sum = c * l.sum := by
  induction l with
  | nil => simp
  | cons x xs ih => simp [ih, mul_add]

/-- The construction succeeds whenever the column count matches, and yields
exactly the cached state of `__init__`. -/
theorem mkBlackLitterman_ok (logf : ℚ → ℚ) (mc2 : List (String × ℚ))
    (t : PriceTable) (lam tau : ℚ) (h2 : t.cols.length = mc2.length) :
    mkBlackLitterman logf mc2 t lam tau = .ok
      { assets := mc2.map Prod.fst,
        w_market := (mc2.map Prod.snd).map (fun x => x / (mc2.map Prod.snd).sum),
        Sigma := bl_sigma logf t,
        pi := (bl_sigma logf t).map (fun row =>
          (dotOpt row ((mc2.map Prod.snd).map
            (fun x => x / (mc2.map Prod.snd).sum))).map (fun x => lam * x)),
        risk_aversion := lam, tau := tau } := by
  unfold mkBlackLitterman
  rw [if_pos h2]

/-- C5: at construction, for every `market_composition` with nonzero weight
sum, `w_market` is the input weight vector divided by its sum (hence sums to
1 exactly), the cached `pi` equals `risk_aversion * Sigma.dot(w_market)`,
and scaling every input weight by the same positive constant leaves both
`w_market` and `pi` unchanged. -/
theorem init_normalization_and_equilibrium (logf : ℚ → ℚ) (mc : List (String × ℚ))
    (t : PriceTable) (lam tau c : ℚ)
    (hsum : (mc.map Prod.snd).sum ≠ 0) (hc : 0 < c)
    (hcnt : t.cols.length = mc.length) :
    ∃ st st2 : BlackLitterman,
      mkBlackLitterman logf mc t lam tau = .ok st ∧
      mkBlackLitterman logf (mc.map (fun p => (p.1, c * p.2))) t lam tau = .ok st2 ∧
      st.w_market = (mc.map Prod.snd).map (fun x => x / (mc.map Prod.snd).sum) ∧
      st.w_market.sum = 1 ∧
      st.Sigma = bl_sigma logf t ∧
      st.pi = st.Sigma.map (fun row =>
        (dotOpt row st.w_market).map (fun x => lam * x)) ∧
      st2.w_market = st.w_market ∧ st2.pi = st.pi := by
  have hcnt2 : t.cols.length = (mc.map (fun p => (p.1, c * p.2))).length := by
    rw [List.length_map]; exact hcnt
  have hsnd : (mc.map (fun p => (p.1, c * p.2))).map Prod.snd =
      (mc.map Prod.snd).map (fun x => c * x) := by
    rw [List.map_map, List.map_map]; rfl
  have hw : ((mc.map (fun p => (p.1, c * p.2))).map Prod.snd).map
      (fun x => x / ((mc.map (fun p => (p.1, c * p.2))).map Prod.snd).sum) =
      (mc.map Prod.snd).map (fun x => x / (mc.map Prod.snd).sum) := by
    rw [hsnd, sum_map_scale, List.map_map]
    refine List.map_congr_left ?_
    intro x _
    show c * x / (c * (mc.map Prod.snd).sum) = x / (mc.map Prod.snd).sum
    exact mul_div_mul_left x (mc.map Prod.snd).sum (ne_of_gt hc)
  refine ⟨_, _, mkBlackLitterman_ok logf mc t lam tau hcnt,
    mkBlackLitterman_ok logf _ t lam tau hcnt2, rfl, ?_, rfl, rfl, hw, ?_⟩
  · show ((mc.map Prod.snd).map (fun x => x / (mc.map Prod.snd).sum)).sum = 1
    rw [sum_map_div, div_self hsum]
  · show (bl_sigma logf t).map (fun row =>
        (dotOpt row (((mc.map (fun p => (p.1, c * p.2))).map Prod.snd).map
          (fun x => x / ((mc.map (fun p => (p.1, c * p.2))).map Prod.snd).sum))).map
            (fun x => lam * x)) = _
    rw [hw]

/-- Witness for C5 at the spec's own example composition `A:2, B:2, C:1`
(normalizing to `0.4, 0.4, 0.2`) with scale factor 2. -/
theorem init_normalization_and_equilibrium_witness :
    ((mcABC.map Prod.snd).sum ≠ 0) ∧ ((0 : ℚ) < 2) ∧
    (tABC.cols.length = mcABC.length) ∧
    (∃ st st2 : BlackLitterman,
      mkBlackLitterman logStub mcABC tABC 3 (1 / 40) = .ok st ∧
      mkBlackLitterman logStub (mcABC.map (fun p => (p.1, 2 * p.2))) tABC 3 (1 / 40) =
        .ok st2 ∧
      st.w_market = (mcABC.map Prod.snd).map (fun x => x / (mcABC.map Prod.snd).sum) ∧
      st.w_market.sum = 1 ∧
      st.Sigma = bl_sigma logStub tABC ∧
      st.pi = st.Sigma.map (fun row =>
        (dotOpt row st.w_market).map (fun x => 3 * x)) ∧
      st2.w_market = st.w_market ∧ st2.pi = st.pi) :=
  ⟨by norm_num [mcABC], by norm_num, by rfl,
    init_normalization_and_equilibrium logStub mcABC tABC 3 (1 / 40) 2
      (by norm_num [mcABC]) (by norm_num) (by rfl)⟩

/-- Auxiliary: `getD` distributes over `zip` within both ranges. -/
theorem getD_zip {α β : Type} (da : α) (db : β) :
    ∀ (a : List α) (b : List β) (i : ℕ), i < a.length → i < b.length →
      (List.zip a b).getD i (da, db) = (a.getD i da, b.getD i db) := by
  intro a
  induction a with
  | nil => intro b i h _; exact absurd h (Nat.not_lt_zero i)
  | cons x xs ih =>
    intro b i h1 h2
    cases b with
    | nil => exact absurd h2 (Nat.not_lt_zero i)
    | cons y ys =>
      cases i with
      | zero => rfl
      | succ i =>
        rw [List.zip_cons_cons, List.getD_cons_succ, List.getD_cons_succ,
          List.getD_cons_succ]
        exact ih ys i (Nat.lt_of_succ_lt_succ h1) (Nat.lt_of_succ_lt_succ h2)

/-- Lemma: `checkedSolver` satisfies the modelled scipy contract. -/
theorem checkedSolver_sound : solver_sound checkedSolver (1 / 1000000) := by
  intro f x0 bounds g h
  have hb : feasibleB x0 bounds g (1 / 1000000) = true := h
  rw [feasibleB] at hb
  simp only [Bool.and_eq_true, decide_eq_true_eq, List.all_eq_true,
    List.mem_range] at hb
  exact ⟨hb.1.1, hb.1.2, hb.2⟩

/-- C1: for every successful `compute_optimal_weights(mu, max_deviation=d)`
call with `d` in `[0, 1)` and a solver meeting the scipy contract, the
returned weights lie inside `[(1-d) w_market_i, (1+d) w_market_i]` for every
asset and sum to 1 within the `1e-6` tolerance. -/
theorem optimal_weights_respect_bounds (solver : SolverFn)
    (hsolver : solver_sound solver (1 / 1000000))
    (lam : ℚ) (SigmaQ : List (List ℚ)) (w_market mu : List ℚ) (d : ℚ)
    (hd0 : 0 ≤ d) (hd1 : d < 1) (w : List ℚ)
    (hok : compute_optimal_weights solver lam SigmaQ w_market mu d = .ok w) :
    w.length = w_market.length ∧
    (∀ i, i < w_market.length →
      (1 - d) * w_market.getD i 0 ≤ w.getD i 0 ∧
      w.getD i 0 ≤ (1 + d) * w_market.getD i 0) ∧
    |w.sum - 1| ≤ 1 / 1000000 := by
  simp only [compute_optimal_weights] at hok
  split at hok
  · exact absurd hok (by simp)
  · split at hok
    case isTrue hsucc =>
      obtain ⟨hlen, hbnd, hcon⟩ := hsolver _ _ _ _ hsucc
      have hzlen : (List.zip (lower_bounds w_market d) (upper_bounds w_market d)).length =
          w_market.length := by
        simp [List.length_zip, lower_bounds, upper_bounds]
      injection hok with hok2
      subst hok2
      refine ⟨by rw [hlen, hzlen], ?_, hcon⟩
      intro i hi
      have hib : i < (List.zip (lower_bounds w_market d) (upper_bounds w_market d)).length := by
        rw [hzlen]; exact hi
      have := hbnd i hib
      rw [getD_zip (0 : ℚ) (0 : ℚ) _ _ i
        (by simp [lower_bounds]; exact hi) (by simp [upper_bounds]; exact hi)] at this
      rw [lower_bounds, upper_bounds, getD_map_range, getD_map_range] at this
      · exact this
      · exact hi
      · exact hi
    case isFalse hsucc => exact absurd hok (by simp)

/-- Witness for C1: a one-asset instance where `checkedSolver` reports
success from the market-weight initial guess. -/
theorem optimal_weights_respect_bounds_witness :
    compute_optimal_weights checkedSolver 3 [[1 / 25]] [1] [1 / 10] (1 / 5) = .ok [1] ∧
    ((0 : ℚ) ≤ 1 / 5) ∧ ((1 / 5 : ℚ) < 1) ∧
    (([1] : List ℚ).length = ([1] : List ℚ).length ∧
      (∀ i, i < ([1] : List ℚ).length →
        (1 - 1 / 5) * ([1] : List ℚ).getD i 0 ≤ ([1] : List ℚ).getD i 0 ∧
        ([1] : List ℚ).getD i 0 ≤ (1 + 1 / 5) * ([1] : List ℚ).getD i 0) ∧
      |([1] : List ℚ).sum - 1| ≤ 1 / 1000000) := by
  have hok : compute_optimal_weights checkedSolver 3 [[1 / 25]] [1] [1 / 10] (1 / 5) =
      .ok [1] := by
    simp only [compute_optimal_weights, lower_bounds, upper_bounds, checkedSolver, feasibleB]
    norm_num [List.range_succ, List.all_eq_true, List.mem_range]
  exact ⟨hok, by norm_num, by norm_num,
    optimal_weights_respect_bounds checkedSolver checkedSolver_sound 3 [[1 / 25]] [1]
      [1 / 10] (1 / 5) (by norm_num) (by norm_num) [1] hok⟩

/-- C6: `compute_optimal_weights` raises the descriptive infeasibility error
before invoking the solver iff the box bounds cannot meet the sum-to-one
constraint, i.e. iff `sum(lower_bounds) > 1` or `sum(upper_bounds) < 1`;
when the precheck fires, the outcome is identical for every solver, so no
solver iteration is attempted. -/
theorem optimal_weights_infeasibility_precheck (lam : ℚ) (SigmaQ : List (List ℚ))
    (w_market mu : List ℚ) (d : ℚ) :
    (∀ solver : SolverFn,
      is_infeasible_error (compute_optimal_weights solver lam SigmaQ w_market mu d) = true ↔
        (lower_bounds w_market d).sum > 1 ∨ (upper_bounds w_market d).sum < 1) ∧
    (((lower_bounds w_market d).sum > 1 ∨ (upper_bounds w_market d).sum < 1) →
      ∀ s1 s2 : SolverFn,
        compute_optimal_weights s1 lam SigmaQ w_market mu d =
        compute_optimal_weights s2 lam SigmaQ w_market mu d) := by
  constructor
  · intro solver
    simp only [compute_optimal_weights]
    by_cases hc : (lower_bounds w_market d).sum > 1 ∨ (upper_bounds w_market d).sum < 1
    · rw [if_pos hc]
      simp [is_infeasible_error, hc]
    · rw [if_neg hc]
      constructor
      · intro h
        exfalso
        split at h
        · simp [is_infeasible_error] at h
        · simp [is_infeasible_error] at h
      · intro h
        exact absurd h hc
  · intro hc s1 s2
    simp only [compute_optimal_weights]
    rw [if_pos hc, if_pos hc]

/-- Witness for C6: two raw weights of 2 each give a lower-bound sum of
4 > 1 at `max_deviation = 0`, so the precheck fires for any solver and the
outcome is solver-independent. -/
theorem optimal_weights_infeasibility_precheck_witness :
    ((lower_bounds [2, 2] 0).sum > 1 ∨ (upper_bounds [2, 2] 0).sum < 1) ∧
    is_infeasible_error
      (compute_optimal_weights checkedSolver 3 [[1, 0], [0, 1]] [2, 2] [1, 1] 0) = true ∧
    compute_optimal_weights checkedSolver 3 [[1, 0], [0, 1]] [2, 2] [1, 1] 0 =
      compute_optimal_weights failSolver 3 [[1, 0], [0, 1]] [2, 2] [1, 1] 0 := by
  have hc : (lower_bounds [2, 2] (0 : ℚ)).sum > 1 ∨
      (upper_bounds [2, 2] (0 : ℚ)).sum < 1 := by
    norm_num [lower_bounds, upper_bounds, List.range_succ]
  exact ⟨hc,
    ((optimal_weights_infeasibility_precheck 3 [[1, 0], [0, 1]] [2, 2] [1, 1] 0).1
      checkedSolver).mpr hc,
    (optimal_weights_infeasibility_precheck 3 [[1, 0], [0, 1]] [2, 2] [1, 1] 0).2 hc
      checkedSolver failSolver⟩

/-- Lemma: `compute_returns` with the default method `log` always succeeds with the
per-column log-return map; this is the branch `__init__` inlines. -/
theorem compute_returns_log_eq (logf : ℚ → ℚ) (priceCols : List (List ℚ)) :
    compute_returns logf priceCols "log" = .ok (priceCols.map (log_returns logf)) := rfl

/-- Auxiliary: with pairwise distinct column names, looking every name up in
the table returns exactly the table's columns, in order. -/
theorem column_for_map_aux :
    ∀ cols : List (String × List ℚ), (cols.map Prod.fst).Nodup →
      (cols.map Prod.fst).map (column_for ⟨cols⟩) = cols.map Prod.snd := by
  intro cols
  induction cols with
  | nil => intro _; rfl
  | cons p rest ih =>
    intro h
    have hnotin : p.1 ∉ rest.map Prod.fst := (List.nodup_cons.mp h).1
    rw [List.map_cons, List.map_cons, List.map_cons]
    have hhead : column_for ⟨p :: rest⟩ p.1 = p.2 := by
      simp [column_for, List.find?]
    rw [hhead]
    have htail : ∀ b ∈ rest.map Prod.fst,
        column_for ⟨p :: rest⟩ b = column_for ⟨rest⟩ b := by
      intro b hb
      have hne : ¬p.1 = b := fun he => hnotin (he ▸ hb)
      simp [column_for, List.find?, hne]
    rw [List.map_congr_left htail, ih (List.nodup_cons.mp h).2]

/-- C2 (amended): `w_market`, view selection rows and optimizer output are
indexed by the `market_composition` key order, while the cached `Sigma` (and
hence `pi`) follow the price table's own column order; the two agree — and
the engine is aligned as the spec demands — exactly when the price table's
columns are the `market_composition` keys in the same order. -/
theorem sigma_alignment_when_orders_agree (logf : ℚ → ℚ) (mc : List (String × ℚ))
    (t : PriceTable) (hnames : t.cols.map Prod.fst = mc.map Prod.fst)
    (hnodup : (t.cols.map Prod.fst).Nodup) :
    bl_sigma logf t = spec_aligned_sigma logf mc t := by
  rw [bl_sigma, spec_aligned_sigma, ← hnames]
  have haux : (t.cols.map Prod.fst).map (column_for t) = t.cols.map Prod.snd :=
    column_for_map_aux t.cols hnodup
  rw [haux]

/-- Witness for the C2 amended theorem at an aligned concrete table. -/
theorem sigma_alignment_when_orders_agree_witness :
    (tAligned.cols.map Prod.fst = mcAB.map Prod.fst) ∧
    (tAligned.cols.map Prod.fst).Nodup ∧
    bl_sigma logStub tAligned = spec_aligned_sigma logStub mcAB tAligned :=
  ⟨by decide, by decide,
    sigma_alignment_when_orders_agree logStub mcAB tAligned (by decide) (by decide)⟩

/-- C2 counterexample: same two assets, columns in the opposite order.  The
engine's cached covariance is indexed by the price table's column order:
its (0,0) entry is the variance of column B (zero, B being constant), while
the AssetUniverse-aligned matrix carries asset A's nonzero variance there;
the cached `Sigma` of the constructed engine is exactly the misaligned one. -/
theorem sigma_misalignment_counterexample :
    (tSwapped.cols.map Prod.fst).Perm (mcAB.map Prod.fst) ∧
    ((bl_sigma logStub tSwapped).getD 0 []).getD 0 (some 1) = some 0 ∧
    ((spec_aligned_sigma logStub mcAB tSwapped).getD 0 []).getD 0 (some 1) =
      some (567 / 2) ∧
    bl_sigma logStub tSwapped ≠ spec_aligned_sigma logStub mcAB tSwapped ∧
    (bl_of (mkBlackLitterman logStub mcAB tSwapped 3 (1 / 40))).Sigma =
      bl_sigma logStub tSwapped := by
  have h1 : ((bl_sigma logStub tSwapped).getD 0 []).getD 0 (some 1) = some 0 := by
    norm_num [bl_sigma, tSwapped, logStub, compute_covariance, cov_entry, log_returns,
      meanL]
  have h2 : ((spec_aligned_sigma logStub mcAB tSwapped).getD 0 []).getD 0 (some 1) =
      some (567 / 2) := by
    norm_num [spec_aligned_sigma, tSwapped, mcAB, logStub, compute_covariance, cov_entry,
      log_returns, meanL, column_for, List.find?,
      show ("B" : String) ≠ "A" from fun h => by simp at h,
      show ("A" : String) ≠ "B" from fun h => by simp at h]
  refine ⟨?_, h1, h2, ?_, rfl⟩
  · exact List.Perm.swap "A" "B" []
  · intro heq
    rw [heq] at h1
    exact absurd (Option.some.inj (h1.symm.trans h2)) (by norm_num)

/-- Auxiliary: a column of `L` prices yields `L - 1` return rows. -/
theorem log_returns_length (logf : ℚ → ℚ) (prices : List ℚ) :
    (log_returns logf prices).length = prices.length - 1 := by
  rw [log_returns, List.length_zipWith, List.length_tail]
  exact Nat.min_eq_right (Nat.sub_le _ _)

/-- Auxiliary: a covariance entry is NaN exactly when either column has
fewer than 2 observations. -/
theorem cov_entry_eq_none (xs ys : List ℚ) :
    cov_entry xs ys = none ↔ (xs.length < 2 ∨ ys.length < 2) := by
  by_cases h : xs.length < 2 ∨ ys.length < 2 <;> simp [cov_entry, h]

/-- C9 (amended): return/covariance estimation raises no error when fewer
than 2 return rows remain after differencing — construction still succeeds —
and instead every entry of the cached covariance matrix is NaN exactly when
fewer than 2 return rows (`L - 1 < 2` for `L` price rows) are available. -/
theorem covariance_nan_iff_few_return_rows (logf : ℚ → ℚ) (mc : List (String × ℚ))
    (t : PriceTable) (lam tau : ℚ) (L : ℕ)
    (hrect : ∀ c ∈ t.cols, c.2.length = L)
    (hcnt : t.cols.length = mc.length) :
    ∃ st, mkBlackLitterman logf mc t lam tau = .ok st ∧
      ∀ row ∈ st.Sigma, ∀ e ∈ row, (e = none ↔ L - 1 < 2) := by
  refine ⟨_, mkBlackLitterman_ok logf mc t lam tau hcnt, ?_⟩
  intro row hrow e he
  obtain ⟨xs, hxs, rfl⟩ := List.mem_map.mp hrow
  obtain ⟨ys, hys, rfl⟩ := List.mem_map.mp he
  obtain ⟨px, hpx, rfl⟩ := List.mem_map.mp hxs
  obtain ⟨py, hpy, rfl⟩ := List.mem_map.mp hys
  obtain ⟨cx, hcx, rfl⟩ := List.mem_map.mp hpx
  obtain ⟨cy, hcy, rfl⟩ := List.mem_map.mp hpy
  have hx : (log_returns logf cx.2).length = L - 1 := by
    rw [log_returns_length, hrect cx hcx]
  have hy : (log_returns logf cy.2).length = L - 1 := by
    rw [log_returns_length, hrect cy hcy]
  rw [Option.map_eq_none', cov_entry_eq_none, hx, hy, or_self]

/-- Witness for the C9 amended theorem on a rectangular two-row table. -/
theorem covariance_nan_iff_few_return_rows_witness :
    (∀ c ∈ tTwoRows.cols, c.2.length = 2) ∧ (tTwoRows.cols.length = mcAB.length) ∧
    (∃ st, mkBlackLitterman logStub mcAB tTwoRows 3 (1 / 40) = .ok st ∧
      ∀ row ∈ st.Sigma, ∀ e ∈ row, (e = none ↔ 2 - 1 < 2)) :=
  ⟨by decide, by decide,
    covariance_nan_iff_few_return_rows logStub mcAB tTwoRows 3 (1 / 40) 2
      (by decide) (by decide)⟩

/-- C9 counterexample: with only 2 price rows one return row survives
differencing, yet no error is raised anywhere in the estimation path:
construction succeeds and the cached covariance entries are silently NaN. -/
theorem covariance_no_error_counterexample :
    (log_returns logStub [1, 2]).length = 1 ∧
    is_ok (mkBlackLitterman logStub mcAB tTwoRows 3 (1 / 40)) = true ∧
    ((bl_of (mkBlackLitterman logStub mcAB tTwoRows 3 (1 / 40))).Sigma.getD 0 []).getD 0
      (some 0) = none := by
  refine ⟨rfl, rfl, rfl⟩

/-- C10 (amended): construction never compares asset names against the
price table's columns: it succeeds iff the number of price columns equals
the number of assets, the only construction-time failure being the generic
numpy shape mismatch raised by the `pi` dot product.  A missing asset
therefore goes undetected whenever the column count happens to match. -/
theorem init_no_name_check (logf : ℚ → ℚ) (mc : List (String × ℚ)) (t : PriceTable)
    (lam tau : ℚ) :
    (is_ok (mkBlackLitterman logf mc t lam tau) = true ↔ t.cols.length = mc.length) ∧
    (t.cols.length ≠ mc.length →
      mkBlackLitterman logf mc t lam tau = .error .shape_mismatch) := by
  constructor
  · constructor
    · intro h
      by_contra hne
      simp only [mkBlackLitterman] at h
      rw [if_neg hne] at h
      simp [is_ok] at h
    · intro he
      simp only [mkBlackLitterman]
      rw [if_pos he]
      rfl
  · intro hne
    simp only [mkBlackLitterman]
    rw [if_neg hne]

/-- Witness for the C10 amended theorem: one column against two assets
fails with the generic shape mismatch at construction. -/
theorem init_no_name_check_witness :
    (tShort.cols.length ≠ mcAB.length) ∧
    mkBlackLitterman logStub mcAB tShort 3 (1 / 40) = .error .shape_mismatch :=
  ⟨by decide, (init_no_name_check logStub mcAB tShort 3 (1 / 40)).2 (by decide)⟩

/-- C10 counterexample: asset B of the market composition is absent from
the price table's columns (replaced by an unrelated column C of equal
count), yet construction succeeds without any error. -/
theorem init_missing_asset_counterexample :
    ("B" ∈ mcAB.map Prod.fst) ∧ ("B" ∉ tMissing.cols.map Prod.fst) ∧
    is_ok (mkBlackLitterman logStub mcAB tMissing 3 (1 / 40)) = true := by
  refine ⟨by decide, by decide, rfl⟩
